import Mathlib

/-!
Verification of the loss-function subsystem of `keras-retinanet`
(`src/keras_retinanet/losses.py`) against its natural-language specification.

Modelling conventions (shallow embedding):
* Tensors of floats are modelled over `ℚ`.  All branch conditions,
  filters, gathers and reductions are translated exactly; the only
  abstraction is the transcendental logarithm, which is passed around as
  an explicit function parameter `logf : ℚ → ℚ` (the claims settled here
  never depend on its values at the points where it is evaluated, or only
  on which arguments it receives).
* Division in `ℚ` is total with `x / 0 = 0`; the Python code has no
  division-by-zero guard either (the spec flags this as an open
  question), and no claim below hinges on that case.
* A box is `(x1, y1, x2, y2)`, as in the source.
* `K.tf.cast(·, int32)` on a float truncates toward zero; we model it by
  truncated integer division of the rational's numerator by denominator.
-/

/-- A box `(x1, y1, x2, y2)` with `x1 ≤ x2`, `y1 ≤ y2` by convention
(not enforced, as in the source). -/
structure Box where
  x1 : ℚ
  y1 : ℚ
  x2 : ℚ
  y2 : ℚ
deriving DecidableEq, Repr

/-- One entry of `bbox_overlap_iou` (losses.py lines 87-103): the
broadcasted tensor formula evaluated at one pair of boxes.
`inter_area = (xI2 - xI1 + 1) * (yI2 - yI1 + 1)`,
`union = area1 + area2 - inter_area`, result `max (inter/union) 0`. -/
def bbox_overlap_iou_pair (b1 b2 : Box) : ℚ :=
  let xI1 := max b1.x1 b2.x1
  let yI1 := max b1.y1 b2.y1
  let xI2 := min b1.x2 b2.x2
  let yI2 := min b1.y2 b2.y2
  let inter_area := (xI2 - xI1 + 1) * (yI2 - yI1 + 1)
  let bboxes1_area := (b1.x2 - b1.x1 + 1) * (b1.y2 - b1.y1 + 1)
  let bboxes2_area := (b2.x2 - b2.x1 + 1) * (b2.y2 - b2.y1 + 1)
  let union := bboxes1_area + bboxes2_area - inter_area
  max (inter_area / union) 0

/-- `bbox_overlap_iou(bboxes1, bboxes2)` (losses.py lines 71-103):
matrix of pairwise IoU values, row `i` column `j` holding the value for
`bboxes1[i]`, `bboxes2[j]`. -/
def bbox_overlap_iou (bs1 bs2 : List Box) : List (List ℚ) :=
  bs1.map (fun b1 => bs2.map (fun b2 => bbox_overlap_iou_pair b1 b2))

/-- One entry of `bbox_iog` (losses.py lines 106-120): same intersection
formula as IoU, denominator is the ground-truth box area only. -/
def bbox_iog_pair (p g : Box) : ℚ :=
  let xI1 := max p.x1 g.x1
  let yI1 := max p.y1 g.y1
  let xI2 := min p.x2 g.x2
  let yI2 := min p.y2 g.y2
  let intersect_area := (xI2 - xI1 + 1) * (yI2 - yI1 + 1)
  let gt_area := (g.x2 - g.x1 + 1) * (g.y2 - g.y1 + 1)
  max (intersect_area / gt_area) 0

/-- Quadratic branch of `smooth_l1_distance` (losses.py line 134):
`0.5 * sigma_squared * diff**2`, taken when `diff < 1/sigma_squared`. -/
def smoothL1QuadBranch (sigma_squared diff : ℚ) : ℚ :=
  (1 / 2) * sigma_squared * diff ^ 2

/-- Linear branch of `smooth_l1_distance` (losses.py line 135):
`diff - 0.5 / sigma_squared`, taken otherwise. -/
def smoothL1LinBranch (sigma_squared diff : ℚ) : ℚ :=
  diff - (1 / 2) / sigma_squared

/-- `smooth_l1_distance(y_true, y_pred, delta=3)` (losses.py lines
123-137), elementwise on scalars: `diff = |y_pred - y_true|`, quadratic
branch when `diff < 1/delta²`, linear branch otherwise. -/
def smooth_l1_distance (y_true y_pred : ℚ) (delta : ℚ := 3) : ℚ :=
  let sigma_squared := delta ^ 2
  let regression_diff := |y_pred - y_true|
  if regression_diff < 1 / sigma_squared then
    smoothL1QuadBranch sigma_squared regression_diff
  else
    smoothL1LinBranch sigma_squared regression_diff

/-- `smooth_l1_distance` applied coordinatewise to two boxes and summed
(the `K.sum` over the last axis of the `(n,4)` tensor in
`attraction_term`). -/
def smoothL1Box (a b : Box) : ℚ :=
  smooth_l1_distance a.x1 b.x1 + smooth_l1_distance a.y1 b.y1 +
    smooth_l1_distance a.x2 b.x2 + smooth_l1_distance a.y2 b.y2

/-- Argument at which `smooth_ln` evaluates the logarithm on the branch
it actually selects: `1 - x` on the log branch (`x ≤ delta`), `1 - delta`
on the linear branch. -/
def smooth_ln_logArg (x delta : ℚ) : ℚ :=
  if x ≤ delta then 1 - x else 1 - delta

/-- `smooth_ln(x, delta)` (losses.py lines 140-144) with the logarithm
abstracted as `logf`: `-log(1-x)` when `x ≤ delta`, otherwise
`((x - delta)/(1 - delta)) - log(1 - delta)`. -/
def smooth_ln (logf : ℚ → ℚ) (x delta : ℚ) : ℚ :=
  if x ≤ delta then -(logf (1 - x))
  else ((x - delta) / (1 - delta)) - logf (1 - delta)

/-! ### Focal classification loss (losses.py lines 22-68) -/

/-- `y_true[:, :, -1]` for one anchor row: the anchor state channel. -/
def rowState (r : List ℚ) : ℚ :=
  r.getLastD 0

/-- `y_true[:, :, :-1]` for one anchor row: the label channels. -/
def rowLabels (r : List ℚ) : List ℚ :=
  r.dropLast

/-- The anchors kept by the ignore filter of `_focal` (losses.py lines
48-51): pairs `(labels, classification)` gathered, in row-major order
over `(batch, anchor)`, at the indices where `anchor_state ≠ -1`. -/
def focalKept (y_true y_pred : List (List (List ℚ))) :
    List (List ℚ × List ℚ) :=
  (((y_true.zip y_pred).map (fun img => img.1.zip img.2)).flatten.filter
      (fun a => decide (rowState a.1 ≠ -1))).map
    (fun a => (rowLabels a.1, a.2))

/-- Per-element focal term (losses.py lines 54-59):
`alpha_factor * focal_weight^gamma * binary_crossentropy(label, c)` with
`alpha_factor = alpha` and `focal_weight = 1 - c` when the label is 1,
else `1 - alpha` and `c`.  The crossentropy's logarithm is the abstract
`logf`; `gamma` (2.0 in the source default) is modelled as a natural
exponent. -/
def focalElem (logf : ℚ → ℚ) (alpha : ℚ) (gamma : ℕ) (label c : ℚ) : ℚ :=
  let alpha_factor := if label = 1 then alpha else 1 - alpha
  let focal_weight := if label = 1 then 1 - c else c
  (alpha_factor * focal_weight ^ gamma) * (-(label * logf c + (1 - label) * logf (1 - c)))

/-- Number of anchors with `anchor_state == 1` (losses.py line 62):
the row count of `where(equal(anchor_state, 1))`. -/
def focalPosCount (y_true : List (List (List ℚ))) : ℕ :=
  (y_true.flatten.filter (fun r => decide (rowState r = 1))).length

/-- The normalizer of `_focal` (losses.py lines 62-64):
`max(1.0, count of positive anchors)`. -/
def focalNormalizer (y_true : List (List (List ℚ))) : ℚ :=
  max 1 (focalPosCount y_true : ℚ)

/-- `_focal(y_true, y_pred)` (losses.py lines 32-66): sum of the focal
terms over all kept anchors and all class channels, divided by the
normalizer. -/
def focalLoss (logf : ℚ → ℚ) (alpha : ℚ) (gamma : ℕ)
    (y_true y_pred : List (List (List ℚ))) : ℚ :=
  ((focalKept y_true y_pred).map
      (fun a => ((a.1.zip a.2).map
        (fun lc => focalElem logf alpha gamma lc.1 lc.2)).sum)).sum /
    focalNormalizer y_true

/-! ### Repulsion regression loss (losses.py lines 147-221) -/

/-- First index of the maximum of a list (`K.argmax(·, axis=1)` on one
row; TensorFlow returns the smallest index among ties).  0 on the empty
row (the callers never pass one). -/
def argmaxIdx : List ℚ → ℕ
  | [] => 0
  | x :: xs =>
    (xs.enum.foldl
      (fun best p => if best.2 < p.2 then (p.1 + 1, p.2) else best)
      ((0 : ℕ), x)).1

/-- Index of the second-largest entry of a row, as produced by
`tf.nn.top_k(·, k=2)[1][:, 1]` (losses.py lines 165-166): among the
positions other than the first argmax, the first position attaining the
maximum value. -/
def secondmaxIdx (l : List ℚ) : ℕ :=
  let i1 := argmaxIdx l
  let rest := l.enum.filter (fun p => decide (p.1 ≠ i1))
  match rest with
  | [] => 0
  | q :: qs =>
    (qs.foldl (fun best p => if best.2 < p.2 then p else best) q).1

/-- Number of columns `K.shape(m)[1]` of a row-major matrix.  In the
source every row of the IoU matrix has length equal to the number of
ground-truth boxes; on an empty matrix this observer returns 0, and the
`has_data` guard of `regression_loss_one` makes the two readings agree
wherever the value is consumed. -/
def numCols (m : List (List ℚ)) : ℕ :=
  (m.headD []).length

/-- `attraction_term(y_true, y_pred, iou_over_predicted)` (losses.py
lines 147-154): for each predicted box, gather the ground-truth box of
highest IoU, sum the smooth-L1 distances, divide by the number of
predicted boxes. -/
def attraction_term (y_true y_pred : List Box) (iou : List (List ℚ)) : ℚ :=
  ((y_pred.zip iou).map
      (fun pr => smoothL1Box pr.1 (y_true.getD (argmaxIdx pr.2) ⟨0, 0, 0, 0⟩))).sum /
    (y_pred.length : ℚ)

/-- `repulsion_term_gt(y_true, y_pred, iou_over_predicted, alpha)`
(losses.py lines 157-175): when the IoU matrix has at least 2 columns,
for each predicted box gather the ground-truth box of second-highest
IoU, pass the IoG through `smooth_ln`, sum, divide by the number of
predicted boxes; otherwise exactly 0. -/
def repulsion_term_gt (logf : ℚ → ℚ) (y_true y_pred : List Box)
    (iou : List (List ℚ)) (alpha : ℚ) : ℚ :=
  if 1 < numCols iou then
    ((y_pred.zip iou).map
        (fun pr =>
          smooth_ln logf
            (bbox_iog_pair pr.1 (y_true.getD (secondmaxIdx pr.2) ⟨0, 0, 0, 0⟩))
            alpha)).sum /
      (y_pred.length : ℚ)
  else 0

/-- `tf.cast(·, int32)` on a float value: truncation toward zero,
modelled on `ℚ` by truncated division of numerator by denominator. -/
def ratTruncToInt (q : ℚ) : ℤ :=
  q.num / (q.den : ℤ)

/-- Image width `W` read from `y_true[0][0]` (losses.py lines 189-190). -/
def rlImageW (y_true : List (List ℚ)) : ℚ :=
  (y_true.headD []).getD 0 0

/-- Image height `H` read from `y_true[0][1]`. -/
def rlImageH (y_true : List (List ℚ)) : ℚ :=
  (y_true.headD []).getD 1 0

/-- `annotations_len` read from `y_true[0][2]` and cast to int32. -/
def rlAnnotationsLen (y_true : List (List ℚ)) : ℤ :=
  ratTruncToInt ((y_true.headD []).getD 2 0)

/-- A box built from the first 4 entries of a row (`[:, :4]`). -/
def listToBox (r : List ℚ) : Box :=
  ⟨r.getD 0 0, r.getD 1 0, r.getD 2 0, r.getD 3 0⟩

/-- `y_true[1:annotations_len, :4]` (losses.py line 191): the Python
slice keeps the rows at indices `1, …, annotations_len - 1`, i.e. it
drops row 0 and then takes `annotations_len - 1` rows. -/
def rlGtBoxes (y_true : List (List ℚ)) : List Box :=
  ((y_true.drop 1).take (rlAnnotationsLen y_true - 1).toNat).map
    (fun r => listToBox (r.take 4))

/-- Coordinatewise normalization by the tiled `[W, H, W, H]` row
(losses.py lines 194-195). -/
def normBox (w h : ℚ) (b : Box) : Box :=
  ⟨b.x1 / w, b.y1 / h, b.x2 / w, b.y2 / h⟩

/-- The normalized ground-truth boxes of `regression_loss_one`. -/
def rlGtN (y_true : List (List ℚ)) : List Box :=
  (rlGtBoxes y_true).map (normBox (rlImageW y_true) (rlImageH y_true))

/-- The normalized predicted boxes (`y_pred[:, :4]` then division). -/
def rlPredN (y_true y_pred : List (List ℚ)) : List Box :=
  (y_pred.map (fun r => listToBox (r.take 4))).map
    (normBox (rlImageW y_true) (rlImageH y_true))

/-- `iou_over_predicted = bbox_overlap_iou(y_pred, y_true)` (line 197). -/
def rlIou (y_true y_pred : List (List ℚ)) : List (List ℚ) :=
  bbox_overlap_iou (rlPredN y_true y_pred) (rlGtN y_true)

/-- `K.max(row)` over one IoU row (axis 1); 0 on an empty row, which
only arises when there is no ground truth, where the `> 0.5` comparison
is false either way. -/
def listMax : List ℚ → ℚ
  | [] => 0
  | x :: xs => xs.foldl max x

/-- The `highest_iou > 0.5` filter of (losses.py lines 198-202), keeping
each predicted box paired with its IoU row. -/
def rlKept (y_true y_pred : List (List ℚ)) : List (Box × List ℚ) :=
  ((rlPredN y_true y_pred).zip (rlIou y_true y_pred)).filter
    (fun pr => decide ((1 : ℚ) / 2 < listMax pr.2))

/-- The `has_data` guard (losses.py lines 206-208):
`shape(iou_over_predicted)[0] > 0 ∧ shape(iou_over_predicted)[1] > 0 ∧
shape(y_true)[0] > 0`; after the gather the static column count of the
IoU matrix and the ground-truth row count are both the number of
ground-truth boxes. -/
def rlHasData (y_true y_pred : List (List ℚ)) : Bool :=
  (decide (0 < (rlKept y_true y_pred).length) &&
      decide (0 < (rlGtN y_true).length)) &&
    decide (0 < (rlGtN y_true).length)

/-- `regression_loss_one(y_true, y_pred)` (losses.py lines 186-216):
unpack metadata, slice and normalize boxes, filter predictions by
`highest_iou > 0.5`, and if data remains return
`attraction_term + repulsion_term_gt` (`alpha = 0.5`), else 0. -/
def regression_loss_one (logf : ℚ → ℚ) (y_true y_pred : List (List ℚ)) : ℚ :=
  if rlHasData y_true y_pred then
    attraction_term (rlGtN y_true) ((rlKept y_true y_pred).map Prod.fst)
        ((rlKept y_true y_pred).map Prod.snd) +
      repulsion_term_gt logf (rlGtN y_true)
        ((rlKept y_true y_pred).map Prod.fst)
        ((rlKept y_true y_pred).map Prod.snd) (1 / 2)
  else 0

/-! ### Theorems -/

/-- The pairwise IoU formula is symmetric in its two box arguments. -/
lemma bbox_overlap_iou_pair_comm (a b : Box) :
    bbox_overlap_iou_pair a b = bbox_overlap_iou_pair b a := by
  simp only [bbox_overlap_iou_pair]
  rw [max_comm a.x1 b.x1, max_comm a.y1 b.y1, min_comm a.x2 b.x2, min_comm a.y2 b.y2,
    add_comm ((a.x2 - a.x1 + 1) * (a.y2 - a.y1 + 1)) ((b.x2 - b.x1 + 1) * (b.y2 - b.y1 + 1))]

/-- C2: `bbox_overlap_iou` on the spatially disjoint boxes
`(0,0,9,9)` and `(12,12,13,13)` returns `1/25`, not `0`. -/
theorem bbox_overlap_iou_positive_on_disjoint_boxes :
    (Box.mk 0 0 9 9).x2 < (Box.mk 12 12 13 13).x1 ∧
    (Box.mk 0 0 9 9).y2 < (Box.mk 12 12 13 13).y1 ∧
    bbox_overlap_iou [Box.mk 0 0 9 9] [Box.mk 12 12 13 13] = [[1 / 25]] := by
  refine ⟨by norm_num, by norm_num, ?_⟩
  norm_num [bbox_overlap_iou, bbox_overlap_iou_pair]

/-- C4: IoU of a non-degenerate box with itself is exactly 1. -/
theorem bbox_overlap_iou_self (b : Box) (hx : 0 < b.x2 - b.x1 + 1)
    (hy : 0 < b.y2 - b.y1 + 1) :
    bbox_overlap_iou [b] [b] = [[1]] := by
  have hA : (b.x2 - b.x1 + 1) * (b.y2 - b.y1 + 1) ≠ 0 := ne_of_gt (mul_pos hx hy)
  simp only [bbox_overlap_iou, List.map, bbox_overlap_iou_pair, max_self, min_self]
  rw [show (b.x2 - b.x1 + 1) * (b.y2 - b.y1 + 1) + (b.x2 - b.x1 + 1) * (b.y2 - b.y1 + 1) -
      (b.x2 - b.x1 + 1) * (b.y2 - b.y1 + 1) = (b.x2 - b.x1 + 1) * (b.y2 - b.y1 + 1) by ring]
  rw [div_self hA]
  norm_num

theorem bbox_overlap_iou_self_witness :
    bbox_overlap_iou [Box.mk 0 0 1 1] [Box.mk 0 0 1 1] = [[1]] :=
  bbox_overlap_iou_self (Box.mk 0 0 1 1) (by norm_num) (by norm_num)

/-- C5: pairwise IoU is symmetric under swapping the input sets combined
with transposition. -/
theorem bbox_overlap_iou_swap_transpose (A B : List Box) (i j : ℕ)
    (hi : i < A.length) (hj : j < B.length) :
    ((bbox_overlap_iou A B).getD i []).getD j 0 =
      ((bbox_overlap_iou B A).getD j []).getD i 0 := by
  simp only [bbox_overlap_iou, List.getD_eq_getElem?_getD, List.getElem?_map,
    List.getElem?_eq_getElem hi, List.getElem?_eq_getElem hj, Option.map_some',
    Option.getD_some]
  exact bbox_overlap_iou_pair_comm _ _

theorem bbox_overlap_iou_swap_transpose_witness :
    ((bbox_overlap_iou [Box.mk 0 0 4 4, Box.mk 1 1 5 5] [Box.mk 2 2 6 6]).getD 1 []).getD 0 0 =
      ((bbox_overlap_iou [Box.mk 2 2 6 6] [Box.mk 0 0 4 4, Box.mk 1 1 5 5]).getD 0 []).getD 1 0 :=
  bbox_overlap_iou_swap_transpose [Box.mk 0 0 4 4, Box.mk 1 1 5 5] [Box.mk 2 2 6 6] 1 0
    (by norm_num) (by norm_num)

/-- C6: at a difference of exactly `1/sigma²` the quadratic and linear
branch formulas of `smooth_l1_distance` agree, and the function takes
that common value there. -/
theorem smooth_l1_distance_continuous_at_transition (sigma y_true y_pred : ℚ)
    (hs : 0 < sigma) (hd : |y_pred - y_true| = 1 / sigma ^ 2) :
    smoothL1QuadBranch (sigma ^ 2) |y_pred - y_true| =
        smoothL1LinBranch (sigma ^ 2) |y_pred - y_true| ∧
      smooth_l1_distance y_true y_pred sigma =
        smoothL1LinBranch (sigma ^ 2) |y_pred - y_true| := by
  have h2 : sigma ^ 2 ≠ 0 := pow_ne_zero _ (ne_of_gt hs)
  constructor
  · rw [hd]
    simp only [smoothL1QuadBranch, smoothL1LinBranch]
    field_simp
    ring
  · simp only [smooth_l1_distance, hd, lt_irrefl, if_false]

theorem smooth_l1_distance_continuous_at_transition_witness :
    smoothL1QuadBranch ((3 : ℚ) ^ 2) |(1 : ℚ) / 9 - 0| =
        smoothL1LinBranch ((3 : ℚ) ^ 2) |(1 : ℚ) / 9 - 0| ∧
      smooth_l1_distance 0 ((1 : ℚ) / 9) 3 =
        smoothL1LinBranch ((3 : ℚ) ^ 2) |(1 : ℚ) / 9 - 0| :=
  smooth_l1_distance_continuous_at_transition 3 0 (1 / 9) (by norm_num) (by norm_num)

/-- C1 counterexample: with `annotations_len = 3` the slice
`y_true[1:annotations_len]` keeps only rows 1 and 2; the valid
annotation in row 3 is dropped. -/
theorem rlGtBoxes_drops_row_annotations_len :
    rlAnnotationsLen [[100, 80, 3, 0], [1, 2, 3, 4], [5, 6, 7, 8], [9, 10, 11, 12]] = 3 ∧
    rlGtBoxes [[100, 80, 3, 0], [1, 2, 3, 4], [5, 6, 7, 8], [9, 10, 11, 12]] =
      [Box.mk 1 2 3 4, Box.mk 5 6 7 8] ∧
    Box.mk 9 10 11 12 ∉
      rlGtBoxes [[100, 80, 3, 0], [1, 2, 3, 4], [5, 6, 7, 8], [9, 10, 11, 12]] := by
  decide

/-- C1 (amended): the ground-truth box set of `regression_loss_one` is
the rows at indices `1` through `annotations_len - 1` of the target
tensor (its first `annotations_len - 1` rows after the metadata row),
first 4 columns of each. -/
theorem rlGtBoxes_rows_one_to_len_sub_one (y_true : List (List ℚ)) :
    (rlGtBoxes y_true).length =
        min (rlAnnotationsLen y_true - 1).toNat (y_true.length - 1) ∧
      ∀ i, i < (rlGtBoxes y_true).length →
        (rlGtBoxes y_true).getD i (Box.mk 0 0 0 0) =
          listToBox ((y_true.getD (i + 1) []).take 4) := by
  constructor
  · simp [rlGtBoxes, List.length_take]
  · intro i hi
    have hlen : (rlGtBoxes y_true).length =
        min (rlAnnotationsLen y_true - 1).toNat (y_true.length - 1) := by
      simp [rlGtBoxes, List.length_take]
    rw [hlen] at hi
    have hin : i < (rlAnnotationsLen y_true - 1).toNat := lt_of_lt_of_le hi (min_le_left _ _)
    have hiy : 1 + i < y_true.length := by
      have := lt_of_lt_of_le hi (min_le_right _ _)
      omega
    simp only [rlGtBoxes, List.getD_eq_getElem?_getD, List.getElem?_map, List.getElem?_take,
      if_pos hin, List.getElem?_drop, List.getElem?_eq_getElem hiy, Option.map_some',
      Option.getD_some]
    rw [show i + 1 = 1 + i by omega, List.getElem?_eq_getElem hiy]
    simp

theorem rlGtBoxes_rows_one_to_len_sub_one_witness :
    (rlGtBoxes [[100, 80, 3, 0], [1, 2, 3, 4], [5, 6, 7, 8], [9, 10, 11, 12]]).length =
        min (rlAnnotationsLen [[100, 80, 3, 0], [1, 2, 3, 4], [5, 6, 7, 8],
          [9, 10, 11, 12]] - 1).toNat 3 ∧
      (rlGtBoxes [[100, 80, 3, 0], [1, 2, 3, 4], [5, 6, 7, 8], [9, 10, 11, 12]]).getD 1
          (Box.mk 0 0 0 0) =
        listToBox (([(5 : ℚ), 6, 7, 8]).take 4) :=
  ⟨(rlGtBoxes_rows_one_to_len_sub_one _).1,
    (rlGtBoxes_rows_one_to_len_sub_one _).2 1 (by decide)⟩

/-- Every row of a pairwise IoU matrix has one entry per second-set box. -/
lemma length_of_mem_bbox_overlap_iou {bs1 bs2 : List Box} {row : List ℚ}
    (h : row ∈ bbox_overlap_iou bs1 bs2) : row.length = bs2.length := by
  simp only [bbox_overlap_iou, List.mem_map] at h
  obtain ⟨b, _, rfl⟩ := h
  simp

/-- C3: when the program sees at most one ground-truth box, the
per-image repulsion loss reduces to the attraction term alone: the
`repulsion_term_gt` summand is exactly 0. -/
theorem regression_loss_one_single_gt (logf : ℚ → ℚ) (y_true y_pred : List (List ℚ))
    (h : (rlGtN y_true).length ≤ 1) :
    regression_loss_one logf y_true y_pred =
      if rlHasData y_true y_pred then
        attraction_term (rlGtN y_true) ((rlKept y_true y_pred).map Prod.fst)
          ((rlKept y_true y_pred).map Prod.snd)
      else 0 := by
  have hrep : repulsion_term_gt logf (rlGtN y_true)
      ((rlKept y_true y_pred).map Prod.fst)
      ((rlKept y_true y_pred).map Prod.snd) (1 / 2) = 0 := by
    have hcols : numCols ((rlKept y_true y_pred).map Prod.snd) ≤ 1 := by
      rcases hK : rlKept y_true y_pred with _ | ⟨p, rest⟩
      · simp [numCols]
      · have hp : p ∈ rlKept y_true y_pred := by
          rw [hK]; exact List.mem_cons_self _ _
        have hz : p ∈ (rlPredN y_true y_pred).zip (rlIou y_true y_pred) :=
          (List.mem_filter.mp hp).1
        have hrow : p.2 ∈ rlIou y_true y_pred := by
          obtain ⟨p1, p2⟩ := p
          exact (List.of_mem_zip hz).2
        have : p.2.length = (rlGtN y_true).length :=
          length_of_mem_bbox_overlap_iou hrow
        simp only [hK, numCols, List.map_cons, List.headD_cons]
        omega
    unfold repulsion_term_gt
    rw [if_neg (by omega)]
  unfold regression_loss_one
  rw [hrep, add_zero]

theorem regression_loss_one_single_gt_witness :
    regression_loss_one (fun q => q) [[10, 10, 2, 0], [0, 0, 5, 5]] [[0, 0, 5, 5]] =
      if rlHasData [[10, 10, 2, 0], [0, 0, 5, 5]] [[0, 0, 5, 5]] then
        attraction_term (rlGtN [[10, 10, 2, 0], [0, 0, 5, 5]])
          ((rlKept [[10, 10, 2, 0], [0, 0, 5, 5]] [[0, 0, 5, 5]]).map Prod.fst)
          ((rlKept [[10, 10, 2, 0], [0, 0, 5, 5]] [[0, 0, 5, 5]]).map Prod.snd)
      else 0 :=
  regression_loss_one_single_gt (fun q => q) [[10, 10, 2, 0], [0, 0, 5, 5]]
    [[0, 0, 5, 5]] (by decide)

/-- C8: the `has_data` guard returns an exact 0 per-image loss when
there are no ground-truth boxes or no predictions kept by the
`highest_iou > 0.5` filter. -/
theorem regression_loss_one_empty_guard (logf : ℚ → ℚ) (y_true y_pred : List (List ℚ))
    (h : (rlGtN y_true).length = 0 ∨ (rlKept y_true y_pred).length = 0) :
    regression_loss_one logf y_true y_pred = 0 := by
  have hfalse : rlHasData y_true y_pred = false := by
    rcases h with h | h <;> simp [rlHasData, h]
  simp [regression_loss_one, hfalse]

theorem regression_loss_one_empty_guard_witness :
    regression_loss_one (fun q => q) [[10, 10, 1, 0]] [[1, 2, 3, 4]] = 0 :=
  regression_loss_one_empty_guard (fun q => q) [[10, 10, 1, 0]] [[1, 2, 3, 4]]
    (Or.inl (by decide))

/-- C7: when every anchor state is -1 the ignore filter empties the
gathered set, the loss is exactly 0, and the normalizer is floored to 1
(no division by zero). -/
theorem focalLoss_all_ignore (logf : ℚ → ℚ) (alpha : ℚ) (gamma : ℕ)
    (y_true y_pred : List (List (List ℚ)))
    (h : ∀ img ∈ y_true, ∀ r ∈ img, rowState r = -1) :
    focalLoss logf alpha gamma y_true y_pred = 0 ∧ focalNormalizer y_true = 1 := by
  have hkept : focalKept y_true y_pred = [] := by
    simp only [focalKept, List.map_eq_nil_iff, List.filter_eq_nil_iff]
    intro a ha
    obtain ⟨l, hl, hal⟩ := List.mem_flatten.mp ha
    obtain ⟨img, himg, rfl⟩ := List.mem_map.mp hl
    obtain ⟨a1, a2⟩ := a
    have h1 : a1 ∈ img.1 := (List.of_mem_zip hal).1
    have himg1 : img.1 ∈ y_true := by
      obtain ⟨i1, i2⟩ := img
      exact (List.of_mem_zip himg).1
    have := h img.1 himg1 a1 h1
    simp [this]
  have hpos : focalPosCount y_true = 0 := by
    simp only [focalPosCount, List.length_eq_zero, List.filter_eq_nil_iff]
    intro r hr
    obtain ⟨img, himg, hrimg⟩ := List.mem_flatten.mp hr
    have := h img himg r hrimg
    rw [this]
    norm_num
  refine ⟨?_, ?_⟩
  · simp [focalLoss, hkept]
  · simp [focalNormalizer, hpos]

theorem focalLoss_all_ignore_witness :
    focalLoss (fun q => q) (1 / 4) 2 [[[1, 0, -1], [0, 1, -1]]]
        [[[9 / 10, 1 / 10], [2 / 10, 8 / 10]]] = 0 ∧
      focalNormalizer [[[1, 0, -1], [0, 1, -1]]] = 1 :=
  focalLoss_all_ignore (fun q => q) (1 / 4) 2 [[[1, 0, -1], [0, 1, -1]]]
    [[[9 / 10, 1 / 10], [2 / 10, 8 / 10]]] (by decide)

/-- C9: an anchor whose state is neither -1 nor 1 (for example 2) passes
the `state ≠ -1` filter and its focal term is summed in full, while the
normalizer's positive count ignores it and is floored to 1. -/
theorem focalLoss_keeps_nonpositive_state (logf : ℚ → ℚ) (alpha c s : ℚ)
    (h1 : s ≠ -1) (h2 : s ≠ 1) :
    focalLoss logf alpha 2 [[[1, s]]] [[[c]]] = focalElem logf alpha 2 1 c ∧
      focalPosCount [[[1, s]]] = 0 ∧ focalNormalizer [[[1, s]]] = 1 := by
  have hstate : rowState [1, s] = s := by simp [rowState]
  have hpos : focalPosCount [[[1, s]]] = 0 := by
    simp [focalPosCount, hstate, h2]
  have hnorm : focalNormalizer [[[1, s]]] = 1 := by
    simp [focalNormalizer, hpos]
  refine ⟨?_, hpos, hnorm⟩
  simp [focalLoss, focalKept, hstate, h1, hnorm, rowLabels]

theorem focalLoss_keeps_nonpositive_state_witness :
    focalLoss (fun q => q) (1 / 4) 2 [[[1, 2]]] [[[1 / 2]]] =
        focalElem (fun q => q) (1 / 4) 2 1 (1 / 2) ∧
      focalPosCount [[[1, 2]]] = 0 ∧ focalNormalizer [[[1, 2]]] = 1 :=
  focalLoss_keeps_nonpositive_state (fun q => q) (1 / 4) (1 / 2) 2
    (by norm_num) (by norm_num)

/-- C10: with `delta = 0.5` the logarithm inside `smooth_ln` is only
ever evaluated at arguments `≥ 1/2` for inputs in `[0, 1]` (on the log
branch, selected exactly when `x ≤ 1/2`, the argument is `1 - x`;
otherwise it is `1 - 1/2`), so the result is finite even at `x = 1`:
the value does not depend on the logarithm below `1/2`. -/
theorem smooth_ln_half_finite_on_unit_interval (x : ℚ) (_h0 : 0 ≤ x) (_h1 : x ≤ 1) :
    (1 : ℚ) / 2 ≤ smooth_ln_logArg x (1 / 2) ∧
      ∀ L1 L2 : ℚ → ℚ, (∀ q, 1 / 2 ≤ q → L1 q = L2 q) →
        smooth_ln L1 x (1 / 2) = smooth_ln L2 x (1 / 2) := by
  constructor
  · unfold smooth_ln_logArg
    split
    · linarith
    · norm_num
  · intro L1 L2 hL
    unfold smooth_ln
    split
    · next hx => rw [hL (1 - x) (by linarith)]
    · rw [hL (1 - 1 / 2) (by norm_num)]

theorem smooth_ln_half_finite_on_unit_interval_witness :
    (0 : ℚ) ≤ 1 ∧ (1 : ℚ) ≤ 1 ∧ (1 : ℚ) / 2 ≤ smooth_ln_logArg 1 (1 / 2) :=
  ⟨by norm_num, by norm_num,
    (smooth_ln_half_finite_on_unit_interval 1 (by norm_num) (by norm_num)).1⟩
